import Mathlib

/-!
Verification of the RSS → model → Notion curation pipeline in `src/index.js`.

JavaScript strings are modelled as lists of code points (`List Nat`).
Host collaborators are parameters: `new Date(string)` / `JSON.parse` are
functions `JsString → Option _` (`none` = Invalid Date / thrown parse error).
Numbers already coerced by `Number(...)` are modelled as `Option ℚ`
(`none` = non-finite result such as `NaN`).
-/

namespace NotionGamingIdeas

abbrev JsString := List Nat

/-- Embed a Lean string literal as a JS string (list of code points). -/
def js (s : String) : JsString := s.data.map Char.toNat

/-- Model of the character class `\s` used by `index.js` (core white-space
code points; the remaining Unicode space code points behave identically). -/
def isWS (c : Nat) : Bool :=
  decide (c = 9 ∨ c = 10 ∨ c = 11 ∨ c = 12 ∨ c = 13 ∨ c = 32 ∨ c = 160)

/-- `String.prototype.toLowerCase`, per code point (ASCII range). -/
def lower (c : Nat) : Nat := if 65 ≤ c ∧ c ≤ 90 then c + 32 else c

def toLowerJs (s : JsString) : JsString := s.map lower

/-- Worker for `.replace(/\s+/g, " ")`: `prevWS` records whether the previous
input code point belonged to a white-space run already emitted as `" "`. -/
def collapseAux : Bool → JsString → JsString
  | _, [] => []
  | prevWS, c :: rest =>
    if isWS c then
      if prevWS then collapseAux true rest else 32 :: collapseAux true rest
    else c :: collapseAux false rest

/-- `.replace(/\s+/g, " ")`: each maximal white-space run becomes one space. -/
def collapseWS (s : JsString) : JsString := collapseAux false s

def trimLeft (s : JsString) : JsString := s.dropWhile isWS

def trimRight (s : JsString) : JsString := (s.reverse.dropWhile isWS).reverse

/-- `String.prototype.trim`. -/
def trimJs (s : JsString) : JsString := trimRight (trimLeft s)

/-- `normalizeKey` (src/index.js:99-101):
`(s || "").toLowerCase().replace(/\s+/g, " ").trim()`. -/
def normalizeKey (s : JsString) : JsString := trimJs (collapseWS (toLowerJs s))

/-- JS `slice` index resolution: negative indices count from the end,
then the index is clamped into `[0, len]`. -/
def jsSliceIdx (len : Nat) (i : Int) : Nat :=
  if i < 0 then ((len : Int) + i).toNat else min i.toNat len

/-- `String.prototype.slice(start, stop)`. -/
def sliceJs (s : JsString) (start stop : Int) : JsString :=
  (s.take (jsSliceIdx s.length stop)).drop (jsSliceIdx s.length start)

/-- `truncate` (src/index.js:103-106):
`s.length > max ? s.slice(0, max - 1) + "…" : s` (the ellipsis is U+2026). -/
def truncate (s : JsString) (maxLen : Int) : JsString :=
  if (s.length : Int) > maxLen then sliceJs s 0 (maxLen - 1) ++ [8230] else s

/-- `clampNumber` (src/index.js:108-112) after the `Number(n)` coercion:
a finite coercion (`some x`) is clamped, a non-finite one takes the fallback. -/
def clampNumber (n : Option ℚ) (lo hi fallback : ℚ) : ℚ :=
  match n with
  | some x => max lo (min hi x)
  | none => fallback

/-- `clampNumber(n, lo, hi, null)` as used for the year field: the fallback
is `null`, so the result is an optional number. -/
def clampNumberOrNull (n : Option ℚ) (lo hi : ℚ) : Option ℚ :=
  match n with
  | some x => some (max lo (min hi x))
  | none => none

/-- `ensureOneOf` (src/index.js:114-116); `none` models `undefined`, which
`allowed.includes` never contains. -/
def ensureOneOf (value : Option JsString) (allowed : List JsString)
    (fallback : JsString) : JsString :=
  match value with
  | some s => if s ∈ allowed then s else fallback
  | none => fallback

/-- `a || b` for a possibly-undefined string `a` (`""` is falsy). -/
def jsOr (a : Option JsString) (b : JsString) : JsString :=
  match a with
  | some s => if s = [] then b else s
  | none => b

/-- `(a || "")` / `(a ?? "")` for a possibly-undefined string. -/
def optStr (a : Option JsString) : JsString := jsOr a []

def isPrefixJs : JsString → JsString → Bool
  | [], _ => true
  | _ :: _, [] => false
  | a :: as, b :: bs => a == b && isPrefixJs as bs

/-- `String.prototype.includes(k)` — `k` occurs as a contiguous substring. -/
def isInfixJs (k : JsString) : JsString → Bool
  | [] => k.isEmpty
  | c :: rest => isPrefixJs k (c :: rest) || isInfixJs k rest

/-- `KEYWORDS` (src/index.js:57-86), duplicates kept as in the source. -/
def KEYWORDS : List JsString :=
  [js "announce", js "announced", js "announcement", js "reveal",
   js "revealed", js "trailer", js "demo", js "playtest", js "early access",
   js "launch", js "release", js "beta", js "mmo", js "mmorpg", js "online",
   js "season", js "live service", js "presentación", js "anunciado",
   js "anuncio", js "revelado", js "tráiler", js "trailer", js "prueba",
   js "acceso anticipado", js "lanzamiento", js "beta", js "online"]

/-- `includesKeyword` (src/index.js:88-91). -/
def includesKeyword (text : JsString) : Bool :=
  KEYWORDS.any (fun k => isInfixJs k (toLowerJs text))

/-- One raw item of a parsed feed (the fields `index.js` reads). -/
structure RawItem where
  isoDate : Option JsString
  pubDate : Option JsString
  published : Option JsString
  updated : Option JsString
  title : Option JsString
  link : Option JsString
  contentSnippet : Option JsString
  content : Option JsString
  summary : Option JsString
deriving DecidableEq

structure RawFeed where
  url : JsString
  title : Option JsString
  items : List RawItem
deriving DecidableEq

/-- The record pushed onto `all` (src/index.js:154-160); the stored ISO date
string is represented by the millisecond timestamp (`toISOString` is strictly
monotone, so lexicographic order on the strings is numeric order here). -/
structure FeedEntry where
  title : JsString
  link : JsString
  source : JsString
  date : Int
  snippet : JsString
deriving DecidableEq

/-- `d1 || d2 || ... || null` over the date-like fields (`""` is falsy). -/
def firstTruthy : List (Option JsString) → Option JsString
  | [] => none
  | a :: rest =>
    match a with
    | some s => if s = [] then firstTruthy rest else some s
    | none => firstTruthy rest

/-- `parseDate` (src/index.js:93-97); `dp` models `new Date(string).getTime()`
with `none` for an unparseable date. -/
def parseDate (dp : JsString → Option Int) (it : RawItem) : Option Int :=
  match firstTruthy [it.isoDate, it.pubDate, it.published, it.updated] with
  | none => none
  | some d => dp d

def MAX_ITEMS_FOR_MODEL : Nat := 28

def MAX_PER_FEED : Nat := 20

/-- The per-item body of the loop in `fetchRecentRssItems`
(src/index.js:137-161): date filter, keyword filter, entry construction. -/
def processItem (dp : JsString → Option Int) (cutoff : Int)
    (source : JsString) (it : RawItem) : Option FeedEntry :=
  match parseDate dp it with
  | none => none
  | some t =>
    if t < cutoff then none
    else
      let title := trimJs (optStr it.title)
      let link := trimJs (optStr it.link)
      let content := jsOr it.contentSnippet (jsOr it.content (optStr it.summary))
      let textBlob := toLowerJs (title ++ [32] ++ content)
      if includesKeyword textBlob then
        some ⟨title, link, source, t, truncate (collapseWS content) 280⟩
      else none

/-- One feed's contribution (src/index.js:133-161): at most `MAX_PER_FEED`
items, in feed order, each run through `processItem`. -/
def processFeed (dp : JsString → Option Int) (cutoff : Int)
    (f : RawFeed) : List FeedEntry :=
  (f.items.take MAX_PER_FEED).filterMap (processItem dp cutoff (jsOr f.title f.url))

/-- The dedupe key (src/index.js:170-172). -/
def dedupeKey (x : FeedEntry) : JsString :=
  if x.link ≠ [] then js "L:" ++ normalizeKey x.link
  else js "T:" ++ normalizeKey x.title ++ js "|" ++ normalizeKey x.source

/-- The dedupe loop (src/index.js:167-176): `seen` is the set of keys
already kept; the first occurrence of each key survives. -/
def dedupe : List JsString → List FeedEntry → List FeedEntry
  | _, [] => []
  | seen, x :: rest =>
    if dedupeKey x ∈ seen then dedupe seen rest
    else x :: dedupe (dedupeKey x :: seen) rest

/-- Descending-by-date order used by the final sort (src/index.js:178):
the comparator `a.date < b.date ? 1 : -1` on ISO strings is a stable
descending sort by timestamp. -/
def entryGE (a b : FeedEntry) : Prop := b.date ≤ a.date

instance : DecidableRel entryGE := fun a b =>
  inferInstanceAs (Decidable (b.date ≤ a.date))

instance : IsTotal FeedEntry entryGE := ⟨fun a b => le_total b.date a.date⟩

instance : IsTrans FeedEntry entryGE :=
  ⟨fun _ _ _ h h' => le_trans h' h⟩

/-- `fetchRecentRssItems` (src/index.js:123-180) as a pure function of the
already-fetched feeds and the cutoff timestamp (feeds that failed to fetch
contribute nothing and are simply absent from `feeds`). -/
def fetchRecentRssItems (dp : JsString → Option Int) (cutoff : Int)
    (feeds : List RawFeed) : List FeedEntry :=
  let all := feeds.flatMap (processFeed dp cutoff)
  let deduped := dedupe [] all
  (List.insertionSort entryGE deduped).take MAX_ITEMS_FOR_MODEL

/-- `safeJsonParse`'s `str.indexOf(c)` (position of first occurrence). -/
def idxOf (c : Nat) : JsString → Option Nat
  | [] => none
  | a :: rest => if a = c then some 0 else (idxOf c rest).map (· + 1)

/-- `str.lastIndexOf(c)`. -/
def lastIdxOf (c : Nat) (s : JsString) : Option Nat :=
  (idxOf c s.reverse).map (fun i => s.length - 1 - i)

/-- `safeJsonParse` (src/index.js:182-192); `jp` models `JSON.parse`
(`none` = throws). The result `none` models "the run fails". -/
def safeJsonParse {α : Type} (jp : JsString → Option α) (s : JsString) :
    Option α :=
  match jp s with
  | some v => some v
  | none =>
    match idxOf 123 s, lastIdxOf 125 s with
    | some a, some b =>
      if a < b then jp (sliceJs s (a : Int) ((b : Int) + 1)) else none
    | _, _ => none

/-- The raw, untrusted idea object as decoded from the model response
(src/index.js:390-422 reads exactly these fields). String-valued fields are
`Option JsString` (`none` = absent); `score_viral` is the value after
`Number` coercion; `ano` is `none` for `null`/`undefined`/`""` and otherwise
carries its `Number` coercion. -/
structure RawIdea where
  juego : Option JsString
  tipo : Option JsString
  popularidad : Option JsString
  emocion : Option JsString
  score_viral : Option ℚ
  estado_lanzamiento : Option JsString
  tipo_de_juego : Option JsString
  ano : Option (Option ℚ)
  resumen : Option JsString
  gancho : Option JsString
  por_que_tiene_potencial : Option JsString
  idea_short : Option JsString
  titulo_seo : Option JsString
  guion_60s : Option JsString
  guion_8min : Option JsString
  fuente : Option JsString
  link : Option JsString
  fecha_anuncio : Option JsString
deriving DecidableEq

/-- The sanitized record (one element of `cleaned`, src/index.js:389-423). -/
structure CandidateIdea where
  juego : JsString
  tipo : JsString
  popularidad : JsString
  emocion : JsString
  score_viral : ℚ
  estado_lanzamiento : JsString
  tipo_de_juego : JsString
  ano : Option ℚ
  resumen : JsString
  gancho : JsString
  por_que_tiene_potencial : JsString
  idea_short : JsString
  titulo_seo : JsString
  guion_60s : JsString
  guion_8min : JsString
  fuente : JsString
  link : JsString
  fecha_anuncio : JsString
deriving DecidableEq

def allowedTipo : List JsString := [js "Historia", js "Short", js "Ambos"]

def allowedPop : List JsString := [js "Muy poco conocido", js "Nicho"]

def allowedEmo : List JsString :=
  [js "Misterio", js "Tragedia", js "Shock", js "Terror", js "Nostalgia",
   js "Asombro"]

def allowedEstadoLanzamiento : List JsString :=
  [js "Recién lanzado", js "Demo disponible", js "Early Access",
   js "Próximo lanzamiento", js "Anunciado"]

def allowedTipoJuego : List JsString :=
  [js "Live Service", js "Otro", js "Sandbox", js "Estrategia",
   js "Simulador", js "RPG", js "Roguelike", js "MMO", js "AA", js "Indie"]

/-- The per-candidate sanitization (the `.map` body, src/index.js:390-422).
Note: `tipo`, `popularidad` and `emocion` are passed to `ensureOneOf` raw
(not trimmed); `estado_lanzamiento` and `tipo_de_juego` are trimmed first. -/
def sanitizeIdea (x : RawIdea) : CandidateIdea :=
  { juego := trimJs (optStr x.juego)
    tipo := ensureOneOf x.tipo allowedTipo (js "Ambos")
    popularidad := ensureOneOf x.popularidad allowedPop (js "Nicho")
    emocion := ensureOneOf x.emocion allowedEmo (js "Asombro")
    score_viral := clampNumber x.score_viral 1 10 7
    estado_lanzamiento :=
      ensureOneOf (some (trimJs (optStr x.estado_lanzamiento)))
        allowedEstadoLanzamiento (js "Anunciado")
    tipo_de_juego :=
      ensureOneOf (some (trimJs (optStr x.tipo_de_juego)))
        allowedTipoJuego (js "Otro")
    ano :=
      match x.ano with
      | none => none
      | some q => clampNumberOrNull q 1980 2100
    resumen := trimJs (optStr x.resumen)
    gancho := trimJs (optStr x.gancho)
    por_que_tiene_potencial := trimJs (optStr x.por_que_tiene_potencial)
    idea_short := trimJs (optStr x.idea_short)
    titulo_seo := trimJs (optStr x.titulo_seo)
    guion_60s := trimJs (optStr x.guion_60s)
    guion_8min := trimJs (optStr x.guion_8min)
    fuente := trimJs (optStr x.fuente)
    link := trimJs (optStr x.link)
    fecha_anuncio := trimJs (optStr x.fecha_anuncio) }

/-- `merged.map(...).filter((x) => x.juego)` (src/index.js:389-423): the
sanitized batch, keeping only candidates with a truthy (non-empty) `juego`. -/
def sanitizeBatch (merged : List RawIdea) : List CandidateIdea :=
  (merged.map sanitizeIdea).filter (fun c => !c.juego.isEmpty)

/-- A typed Notion property value (the distinct wrapper shapes used by
`createNotionItem`); a date value is its millisecond timestamp. -/
inductive NotionValue where
  | title (content : JsString)
  | richText (content : JsString)
  | select (name : JsString)
  | number (n : Option ℚ)
  | date (startMs : Int)
  | url (u : Option JsString)
deriving DecidableEq

/-- The `props` object under construction (absent key ↦ `none`). -/
def Props : Type := JsString → Option NotionValue

def emptyProps : Props := fun _ => none

def setProp (name : JsString) (v : NotionValue) (p : Props) : Props :=
  fun n => if n = name then some v else p n

/-- `setIfExists` (src/index.js:197-199); every value passed at a call site
is a non-null object, so the live condition is column existence. -/
def setIfExists (dbProps : List JsString) (name : JsString)
    (v : NotionValue) (p : Props) : Props :=
  if name ∈ dbProps then setProp name v p else p

/-- `setDateIfValid` (src/index.js:201-209): only sets the property when the
column exists, the trimmed value is non-empty, and it parses to a valid
timestamp. -/
def setDateIfValid (dp : JsString → Option Int) (dbProps : List JsString)
    (name : JsString) (isoLike : Option JsString) (p : Props) : Props :=
  if name ∈ dbProps then
    let v := trimJs (optStr isoLike)
    if v = [] then p
    else
      match dp v with
      | none => p
      | some t => setProp name (NotionValue.date t) p
  else p

/-- The property map built by `createNotionItem` (src/index.js:194-251);
`nowIso` is the `new Date().toISOString()` string. -/
def createNotionItem (dp : JsString → Option Int) (nowIso : JsString)
    (dbProps : List JsString) (idea : CandidateIdea) : Props :=
  let p := emptyProps
  let p := setIfExists dbProps (js "Juego") (.title idea.juego) p
  let p := setIfExists dbProps (js "Tipo") (.select idea.tipo) p
  let p := setIfExists dbProps (js "Popularidad") (.select idea.popularidad) p
  let p := setIfExists dbProps (js "Emoción") (.select idea.emocion) p
  let p := setIfExists dbProps (js "Score viral")
    (.number (some (clampNumber (some idea.score_viral) 1 10 7))) p
  let p := setDateIfValid dp dbProps (js "Fecha") (some nowIso) p
  let p := setIfExists dbProps (js "Resumen")
    (.richText (truncate idea.resumen 1800)) p
  let p := setIfExists dbProps (js "Gancho")
    (.richText (truncate idea.gancho 1800)) p
  let p := setIfExists dbProps (js "Por qué tiene potencial")
    (.richText (truncate idea.por_que_tiene_potencial 1800)) p
  let p := setIfExists dbProps (js "Idea Short")
    (.richText (truncate idea.idea_short 1800)) p
  let p := setIfExists dbProps (js "Título SEO")
    (.richText (truncate idea.titulo_seo 500)) p
  let p := setIfExists dbProps (js "Guion 60s")
    (.richText (truncate idea.guion_60s 1800)) p
  let p := setIfExists dbProps (js "Guion 8 min")
    (.richText (truncate idea.guion_8min 1800)) p
  let p := setIfExists dbProps (js "Link")
    (.url (if idea.link = [] then none else some idea.link)) p
  let p := setIfExists dbProps (js "Fuente")
    (.richText (truncate idea.fuente 300)) p
  let p := setDateIfValid dp dbProps (js "Fecha anuncio") (some idea.fecha_anuncio) p
  let p := setIfExists dbProps (js "Tipo de juego") (.select idea.tipo_de_juego) p
  let p := setIfExists dbProps (js "Estado lanzamiento") (.select idea.estado_lanzamiento) p
  let p := setIfExists dbProps (js "Año") (.number idea.ano) p
  p

/-- A raw idea with every field absent (baseline for concrete tests). -/
def emptyRawIdea : RawIdea :=
  { juego := none, tipo := none, popularidad := none, emocion := none,
    score_viral := none, estado_lanzamiento := none, tipo_de_juego := none,
    ano := none, resumen := none, gancho := none,
    por_que_tiene_potencial := none, idea_short := none, titulo_seo := none,
    guion_60s := none, guion_8min := none, fuente := none, link := none,
    fecha_anuncio := none }

/-- A toy `JSON.parse`: succeeds exactly on one JSON object string. -/
def jpToy : JsString → Option Unit :=
  fun t => if t = js "\x7b\"a\": 1\x7d" then some () else none

/-- A model response wrapping that JSON object in markdown fences. -/
def fencedResponse : JsString := js "```json\n\x7b\"a\": 1\x7d\n```"

/-- A date parser for boundary tests: `"D"` parses to timestamp 0. -/
def dpBoundary : JsString → Option Int :=
  fun s => if s = js "D" then some 0 else none

/-- An item whose timestamp equals the cutoff (0) and whose title carries
a keyword. -/
def itemBoundary : RawItem :=
  { isoDate := some (js "D"), pubDate := none, published := none,
    updated := none, title := some (js "beta"), link := none,
    contentSnippet := none, content := none, summary := none }

def feedBoundary : RawFeed := { url := js "u", title := none, items := [itemBoundary] }

/-- The entry the extractor builds from `itemBoundary`. -/
def entryBoundary : FeedEntry :=
  { title := js "beta", link := [], source := js "u", date := 0, snippet := [] }

/-- Every white-space code point of `l` is the plain space 32. -/
abbrev WSare32 (l : JsString) : Prop := ∀ c ∈ l, isWS c = true → c = 32

/-- No two consecutive code points of `l` are both white space. -/
abbrev NoWSRun (l : JsString) : Prop :=
  List.Chain' (fun a b => ¬(isWS a = true ∧ isWS b = true)) l

/-- The first code point of `l` (if any) is not white space. -/
abbrev headNotWS (l : JsString) : Prop :=
  ∀ c, l.head? = some c → isWS c = false

/-! ### Helper lemmas -/

theorem take_min_length {α : Type} (l : List α) (n : Nat) :
    l.take (min n l.length) = l.take n := by
  rcases le_total n l.length with h | h
  · rw [min_eq_left h]
  · rw [min_eq_right h, List.take_length, List.take_of_length_le h]

theorem optStr_some (s : JsString) : optStr (some s) = s := by
  unfold optStr jsOr
  split <;> simp_all

theorem ensureOneOf_mem (v : Option JsString) (allowed : List JsString)
    (fb : JsString) (hfb : fb ∈ allowed) : ensureOneOf v allowed fb ∈ allowed := by
  cases v with
  | none => exact hfb
  | some s =>
    by_cases h : s ∈ allowed <;> simp [ensureOneOf, h, hfb]

theorem ensureOneOf_of_mem (s : JsString) (allowed : List JsString)
    (fb : JsString) (h : s ∈ allowed) : ensureOneOf (some s) allowed fb = s := by
  simp [ensureOneOf, h]

theorem ensureOneOf_of_not_mem (s : JsString) (allowed : List JsString)
    (fb : JsString) (h : s ∉ allowed) : ensureOneOf (some s) allowed fb = fb := by
  simp [ensureOneOf, h]

/-! ### C6 — `truncate` budget contract -/

/-- C6 (counterexample): with budget 0 and input `"ab"`, `truncate` returns
`"a…"` of length 2, so the result length is NOT bounded by the budget —
the claim fails for budgets below 1 (JS `slice(0, -1)` wraps around). -/
theorem truncate_budget_zero_counterexample :
    truncate (js "ab") 0 = js "a" ++ [8230] ∧
    ¬ (((truncate (js "ab") 0).length : Int) ≤ 0) := by
  constructor <;> decide

/-- C6 (amended: budgets ≥ 1): `truncate` returns the input unchanged when
its length is ≤ `maxLen`, otherwise the first `maxLen − 1` code points plus
one ellipsis, giving length exactly `maxLen`; the result length never
exceeds `maxLen`. -/
theorem truncate_budget (s : JsString) (maxLen : Int) (h : 1 ≤ maxLen) :
    (((s.length : Int) ≤ maxLen) → truncate s maxLen = s) ∧
    ((maxLen < (s.length : Int)) →
      truncate s maxLen = s.take (maxLen - 1).toNat ++ [8230] ∧
      ((truncate s maxLen).length : Int) = maxLen) ∧
    ((truncate s maxLen).length : Int) ≤ maxLen := by
  unfold truncate
  by_cases hgt : (s.length : Int) > maxLen
  · rw [if_pos hgt]
    have hslice : sliceJs s 0 (maxLen - 1) = s.take (maxLen - 1).toNat := by
      unfold sliceJs jsSliceIdx
      rw [if_neg (by omega : ¬ (maxLen - 1 < 0)), if_neg (by omega : ¬ ((0:Int) < 0))]
      simp [take_min_length]
    have hlen : (s.take (maxLen - 1).toNat).length = (maxLen - 1).toNat := by
      rw [List.length_take, min_eq_left]
      omega
    refine ⟨fun hle => absurd hle (by omega), fun _ => ⟨by rw [hslice], ?_⟩, ?_⟩
    · rw [hslice]
      simp only [List.length_append, hlen, List.length_cons, List.length_nil]
      omega
    · rw [hslice]
      simp only [List.length_append, hlen, List.length_cons, List.length_nil]
      omega
  · rw [if_neg hgt]
    exact ⟨fun _ => rfl, fun hlt => absurd hlt (by omega), by omega⟩

/-- C6 witness: budget 3 on `"abcd"` gives `"ab…"` of length 3; short
input is returned unchanged. -/
theorem truncate_budget_witness :
    (1 : Int) ≤ 3 ∧ truncate (js "abcd") 3 = (js "abcd").take 2 ++ [8230] ∧
    truncate (js "ab") 3 = js "ab" := by
  refine ⟨by decide, ((truncate_budget (js "abcd") 3 (by decide)).2.1 (by decide)).1, ?_⟩
  exact (truncate_budget (js "ab") 3 (by decide)).1 (by decide)

/-! ### C3 — virality score -/

/-- C3 (counterexample): the model may return a finite non-integer score;
`clampNumber` keeps it as-is, so the sanitized score `7/2` has denominator 2
and is not an integer, contradicting "always an integer". -/
theorem score_viral_not_integer_counterexample :
    (sanitizeIdea { emptyRawIdea with score_viral := some (7/2) }).score_viral
      = 7/2 ∧
    ((7:ℚ)/2).den ≠ 1 := by
  constructor
  · show clampNumber (some (7/2)) 1 10 7 = 7/2
    unfold clampNumber
    norm_num
  · norm_num

/-- C3 (amended): the sanitized virality score always lies in `[1, 10]`;
a finite coercion is clamped (`max 1 (min 10 x)`), a non-finite one becomes
the fallback 7, and the score is an integer whenever the coerced raw value
is (but a finite non-integer raw value stays non-integer). -/
theorem score_viral_bounds (x : RawIdea) :
    1 ≤ (sanitizeIdea x).score_viral ∧ (sanitizeIdea x).score_viral ≤ 10 ∧
    (x.score_viral = none → (sanitizeIdea x).score_viral = 7) ∧
    (∀ q, x.score_viral = some q →
      (sanitizeIdea x).score_viral = max 1 (min 10 q)) ∧
    (∀ q, x.score_viral = some q → q.den = 1 →
      (sanitizeIdea x).score_viral.den = 1) := by
  have hdef : (sanitizeIdea x).score_viral = clampNumber x.score_viral 1 10 7 := rfl
  rw [hdef]
  cases hx : x.score_viral with
  | none =>
    refine ⟨by norm_num [clampNumber], by norm_num [clampNumber],
      fun _ => rfl, fun q hq => by simp_all, fun q hq => by simp_all⟩
  | some q =>
    have h1 : clampNumber (some q) 1 10 7 = max 1 (min 10 q) := rfl
    refine ⟨?_, ?_, by simp, fun r hr => by rw [Option.some_inj] at hr; rw [hr] at h1 ⊢; exact h1, ?_⟩
    · rw [h1]; exact le_max_left _ _
    · rw [h1]
      exact max_le (by norm_num) (min_le_left _ _)
    · intro r hr hden
      rw [Option.some_inj] at hr
      subst hr
      rw [h1]
      rcases le_total (10:ℚ) q with h | h
      · rw [min_eq_left h]
        rcases le_total (1:ℚ) 10 with h' | h'
        · rw [max_eq_right h']; rfl
        · rw [max_eq_left h']; rfl
      · rw [min_eq_right h]
        rcases le_total (1:ℚ) q with h' | h'
        · rw [max_eq_right h']; exact hden
        · rw [max_eq_left h']; rfl

/-- C3 witness: a non-finite raw score becomes 7; a finite score 5 is kept
(clamped form). -/
theorem score_viral_bounds_witness :
    (sanitizeIdea emptyRawIdea).score_viral = 7 ∧
    (sanitizeIdea { emptyRawIdea with score_viral := some 5 }).score_viral
      = max 1 (min 10 5) := by
  refine ⟨(score_viral_bounds emptyRawIdea).2.2.1 rfl, ?_⟩
  exact (score_viral_bounds _).2.2.2.1 5 rfl

/-! ### C2 — enumerated fields -/

/-- C2 (counterexample): `" Short "` trims to `"Short"`, a member of the
`tipo` vocabulary, yet sanitization substitutes the fallback `"Ambos"`:
`tipo` (like `popularidad` and `emocion`) is matched against the vocabulary
WITHOUT trimming (src/index.js:392), so the claim's "after trimming" rule
does not hold for these three fields. -/
theorem enum_tipo_untrimmed_counterexample :
    trimJs (js " Short ") ∈ allowedTipo ∧
    (sanitizeIdea { emptyRawIdea with tipo := some (js " Short ") }).tipo
      = js "Ambos" ∧
    (sanitizeIdea { emptyRawIdea with tipo := some (js " Short ") }).tipo
      ≠ trimJs (js " Short ") := by
  refine ⟨by decide, ?_, ?_⟩ <;> decide

/-- C2 (amended): each enumerated field always ends up holding a member of
its vocabulary and otherwise takes its single fallback (itself a member);
membership is tested on the trimmed raw value only for
`estado_lanzamiento` and `tipo_de_juego`, while `tipo`, `popularidad` and
`emocion` are compared untrimmed; sanitization is a total function. -/
theorem enum_fields_spec (x : RawIdea) :
    ((sanitizeIdea x).tipo ∈ allowedTipo ∧
      (∀ s, x.tipo = some s → s ∈ allowedTipo → (sanitizeIdea x).tipo = s) ∧
      (∀ s, x.tipo = some s → s ∉ allowedTipo →
        (sanitizeIdea x).tipo = js "Ambos") ∧
      (x.tipo = none → (sanitizeIdea x).tipo = js "Ambos") ∧
      js "Ambos" ∈ allowedTipo) ∧
    ((sanitizeIdea x).popularidad ∈ allowedPop ∧
      (∀ s, x.popularidad = some s → s ∈ allowedPop →
        (sanitizeIdea x).popularidad = s) ∧
      (∀ s, x.popularidad = some s → s ∉ allowedPop →
        (sanitizeIdea x).popularidad = js "Nicho") ∧
      (x.popularidad = none → (sanitizeIdea x).popularidad = js "Nicho") ∧
      js "Nicho" ∈ allowedPop) ∧
    ((sanitizeIdea x).emocion ∈ allowedEmo ∧
      (∀ s, x.emocion = some s → s ∈ allowedEmo → (sanitizeIdea x).emocion = s) ∧
      (∀ s, x.emocion = some s → s ∉ allowedEmo →
        (sanitizeIdea x).emocion = js "Asombro") ∧
      (x.emocion = none → (sanitizeIdea x).emocion = js "Asombro") ∧
      js "Asombro" ∈ allowedEmo) ∧
    ((sanitizeIdea x).estado_lanzamiento ∈ allowedEstadoLanzamiento ∧
      (trimJs (optStr x.estado_lanzamiento) ∈ allowedEstadoLanzamiento →
        (sanitizeIdea x).estado_lanzamiento = trimJs (optStr x.estado_lanzamiento)) ∧
      (trimJs (optStr x.estado_lanzamiento) ∉ allowedEstadoLanzamiento →
        (sanitizeIdea x).estado_lanzamiento = js "Anunciado") ∧
      js "Anunciado" ∈ allowedEstadoLanzamiento) ∧
    ((sanitizeIdea x).tipo_de_juego ∈ allowedTipoJuego ∧
      (trimJs (optStr x.tipo_de_juego) ∈ allowedTipoJuego →
        (sanitizeIdea x).tipo_de_juego = trimJs (optStr x.tipo_de_juego)) ∧
      (trimJs (optStr x.tipo_de_juego) ∉ allowedTipoJuego →
        (sanitizeIdea x).tipo_de_juego = js "Otro") ∧
      js "Otro" ∈ allowedTipoJuego) := by
  have htipo : (sanitizeIdea x).tipo = ensureOneOf x.tipo allowedTipo (js "Ambos") := rfl
  have hpop : (sanitizeIdea x).popularidad
      = ensureOneOf x.popularidad allowedPop (js "Nicho") := rfl
  have hemo : (sanitizeIdea x).emocion
      = ensureOneOf x.emocion allowedEmo (js "Asombro") := rfl
  have hest : (sanitizeIdea x).estado_lanzamiento
      = ensureOneOf (some (trimJs (optStr x.estado_lanzamiento)))
          allowedEstadoLanzamiento (js "Anunciado") := rfl
  have htj : (sanitizeIdea x).tipo_de_juego
      = ensureOneOf (some (trimJs (optStr x.tipo_de_juego)))
          allowedTipoJuego (js "Otro") := rfl
  refine ⟨⟨?_, ?_, ?_, ?_, by decide⟩, ⟨?_, ?_, ?_, ?_, by decide⟩,
    ⟨?_, ?_, ?_, ?_, by decide⟩, ⟨?_, ?_, ?_, by decide⟩, ⟨?_, ?_, ?_, by decide⟩⟩
  · rw [htipo]; exact ensureOneOf_mem _ _ _ (by decide)
  · intro s hs hmem; rw [htipo, hs]; exact ensureOneOf_of_mem _ _ _ hmem
  · intro s hs hmem; rw [htipo, hs]; exact ensureOneOf_of_not_mem _ _ _ hmem
  · intro hs; rw [htipo, hs]; rfl
  · rw [hpop]; exact ensureOneOf_mem _ _ _ (by decide)
  · intro s hs hmem; rw [hpop, hs]; exact ensureOneOf_of_mem _ _ _ hmem
  · intro s hs hmem; rw [hpop, hs]; exact ensureOneOf_of_not_mem _ _ _ hmem
  · intro hs; rw [hpop, hs]; rfl
  · rw [hemo]; exact ensureOneOf_mem _ _ _ (by decide)
  · intro s hs hmem; rw [hemo, hs]; exact ensureOneOf_of_mem _ _ _ hmem
  · intro s hs hmem; rw [hemo, hs]; exact ensureOneOf_of_not_mem _ _ _ hmem
  · intro hs; rw [hemo, hs]; rfl
  · rw [hest]; exact ensureOneOf_mem _ _ _ (by decide)
  · intro hmem; rw [hest]; exact ensureOneOf_of_mem _ _ _ hmem
  · intro hmem; rw [hest]; exact ensureOneOf_of_not_mem _ _ _ hmem
  · rw [htj]; exact ensureOneOf_mem _ _ _ (by decide)
  · intro hmem; rw [htj]; exact ensureOneOf_of_mem _ _ _ hmem
  · intro hmem; rw [htj]; exact ensureOneOf_of_not_mem _ _ _ hmem

/-- C2 witness: a valid untrimmed `tipo` is kept; a bogus `emocion` falls
back to `"Asombro"`; a trimmed valid `estado_lanzamiento` is kept. -/
theorem enum_fields_spec_witness :
    (sanitizeIdea { emptyRawIdea with tipo := some (js "Short") }).tipo
      = js "Short" ∧
    (sanitizeIdea { emptyRawIdea with emocion := some (js "Bogus") }).emocion
      = js "Asombro" ∧
    (sanitizeIdea { emptyRawIdea with
        estado_lanzamiento := some (js " Anunciado ") }).estado_lanzamiento
      = trimJs (optStr (some (js " Anunciado "))) := by
  refine ⟨?_, ?_, ?_⟩
  · exact (enum_fields_spec _).1.2.1 (js "Short") rfl (by decide)
  · exact (enum_fields_spec _).2.2.1.2.2.1 (js "Bogus") rfl (by decide)
  · exact (enum_fields_spec _).2.2.2.1.2.1 (by decide)

/-! ### C8 — empty identifying field -/

/-- C8: every record in the sanitized batch has a non-empty `juego`, and a
raw candidate whose `juego` is absent, empty or whitespace-only (trims to
`""`) yields a record that is excluded from the batch passed to
persistence. -/
theorem empty_juego_excluded (merged : List RawIdea) :
    (∀ c ∈ sanitizeBatch merged, c.juego ≠ []) ∧
    (∀ x ∈ merged, trimJs (optStr x.juego) = [] →
      sanitizeIdea x ∉ sanitizeBatch merged) := by
  have hmem : ∀ c ∈ sanitizeBatch merged, c.juego ≠ [] := by
    intro c hc
    unfold sanitizeBatch at hc
    have := List.of_mem_filter hc
    simpa [List.isEmpty_iff] using this
  refine ⟨hmem, ?_⟩
  intro x _ hx hcontra
  have hj : (sanitizeIdea x).juego = trimJs (optStr x.juego) := rfl
  exact hmem _ hcontra (hj.trans hx)

/-- C8 witness: a whitespace-only `juego` is rejected — the batch for that
single candidate is empty. -/
theorem empty_juego_excluded_witness :
    sanitizeIdea { emptyRawIdea with juego := some (js "  ") }
      ∉ sanitizeBatch [{ emptyRawIdea with juego := some (js "  ") }] := by
  exact (empty_juego_excluded _).2 _ (by decide) (by decide)

/-! ### C7 — lenient JSON decode -/

/-- C7: the decode step returns the direct parse when it succeeds; when the
direct parse fails it parses exactly the substring from the first `\x7b` to
the last `\x7d` (when that span is non-trivial), failing only if that parse
also fails; it fails when no such span exists; and a concrete fenced JSON
response decodes successfully. -/
theorem safeJsonParse_spec :
    (∀ (α : Type) (jp : JsString → Option α) (s : JsString) (v : α),
        jp s = some v → safeJsonParse jp s = some v) ∧
    (∀ (α : Type) (jp : JsString → Option α) (s : JsString) (a b : Nat),
        jp s = none → idxOf 123 s = some a → lastIdxOf 125 s = some b →
        a < b →
        safeJsonParse jp s = jp (sliceJs s (a : Int) ((b : Int) + 1))) ∧
    (∀ (α : Type) (jp : JsString → Option α) (s : JsString),
        jp s = none →
        (idxOf 123 s = none ∨ lastIdxOf 125 s = none ∨
          ∀ a b, idxOf 123 s = some a → lastIdxOf 125 s = some b → ¬ a < b) →
        safeJsonParse jp s = none) ∧
    safeJsonParse jpToy fencedResponse = some () := by
  refine ⟨?_, ?_, ?_, by decide⟩
  · intro α jp s v h
    unfold safeJsonParse
    rw [h]
  · intro α jp s a b h ha hb hab
    unfold safeJsonParse
    rw [h, ha, hb]
    simp [hab]
  · intro α jp s h hcase
    unfold safeJsonParse
    rw [h]
    rcases hcase with h1 | h2 | h3
    · rw [h1]
    · rw [h2]
      cases idxOf 123 s <;> rfl
    · cases ha : idxOf 123 s with
      | none => rfl
      | some a =>
        cases hb : lastIdxOf 125 s with
        | none => rfl
        | some b => simp [h3 a b ha hb]

/-- C7 witness: a direct-parse success is returned as-is. -/
theorem safeJsonParse_spec_witness :
    safeJsonParse (fun _ => some (0 : Nat)) (js "") = some 0 :=
  safeJsonParse_spec.1 Nat (fun _ => some 0) (js "") 0 rfl

/-! ### C1 — announcement date -/

theorem setIfExists_ne {db : List JsString} {name : JsString}
    {v : NotionValue} {p : Props} {n : JsString} (h : n ≠ name) :
    setIfExists db name v p n = p n := by
  unfold setIfExists setProp
  split
  · simp only [if_neg h]
  · rfl

theorem setDateIfValid_ne {dp : JsString → Option Int} {db : List JsString}
    {name : JsString} {iso : Option JsString} {p : Props} {n : JsString}
    (h : n ≠ name) : setDateIfValid dp db name iso p n = p n := by
  simp only [setDateIfValid]
  by_cases hdb : name ∈ db
  · rw [if_pos hdb]
    by_cases htrim : trimJs (optStr iso) = []
    · rw [if_pos htrim]
    · rw [if_neg htrim]
      cases dp (trimJs (optStr iso)) with
      | none => rfl
      | some t =>
        show setProp name (NotionValue.date t) p n = p n
        unfold setProp
        rw [if_neg h]
  · rw [if_neg hdb]

theorem setDateIfValid_eval (dp : JsString → Option Int) (db : List JsString)
    (name : JsString) (iso : Option JsString) (p : Props)
    (hp : p name = none) :
    setDateIfValid dp db name iso p name =
      if name ∈ db then
        (if trimJs (optStr iso) = [] then none
         else (dp (trimJs (optStr iso))).map NotionValue.date)
      else none := by
  simp only [setDateIfValid]
  by_cases hdb : name ∈ db
  · rw [if_pos hdb, if_pos hdb]
    by_cases htrim : trimJs (optStr iso) = []
    · rw [if_pos htrim, if_pos htrim]
      exact hp
    · rw [if_neg htrim, if_neg htrim]
      cases dp (trimJs (optStr iso)) with
      | none => exact hp
      | some t =>
        show setProp name (NotionValue.date t) p name = some (NotionValue.date t)
        unfold setProp
        rw [if_pos rfl]
  · rw [if_neg hdb, if_neg hdb]
    exact hp

/-- C1: in the persisted property map, the announcement-date key
`"Fecha anuncio"` is bound exactly when the column exists, the trimmed raw
value is non-empty, and it parses to a valid timestamp (in which case it is
a date value); in every other case — in particular for the empty string —
the key is entirely absent (`none`), never a null/empty placeholder. -/
theorem fecha_anuncio_only_if_valid (dp : JsString → Option Int)
    (nowIso : JsString) (dbProps : List JsString) (idea : CandidateIdea) :
    createNotionItem dp nowIso dbProps idea (js "Fecha anuncio") =
      if js "Fecha anuncio" ∈ dbProps then
        (if trimJs idea.fecha_anuncio = [] then none
         else (dp (trimJs idea.fecha_anuncio)).map NotionValue.date)
      else none := by
  simp only [createNotionItem]
  rw [setIfExists_ne (by decide : js "Fecha anuncio" ≠ js "Año"),
    setIfExists_ne (by decide : js "Fecha anuncio" ≠ js "Estado lanzamiento"),
    setIfExists_ne (by decide : js "Fecha anuncio" ≠ js "Tipo de juego"),
    setDateIfValid_eval, optStr_some]
  rw [setIfExists_ne (by decide : js "Fecha anuncio" ≠ js "Fuente"),
    setIfExists_ne (by decide : js "Fecha anuncio" ≠ js "Link"),
    setIfExists_ne (by decide : js "Fecha anuncio" ≠ js "Guion 8 min"),
    setIfExists_ne (by decide : js "Fecha anuncio" ≠ js "Guion 60s"),
    setIfExists_ne (by decide : js "Fecha anuncio" ≠ js "Título SEO"),
    setIfExists_ne (by decide : js "Fecha anuncio" ≠ js "Idea Short"),
    setIfExists_ne (by decide : js "Fecha anuncio" ≠ js "Por qué tiene potencial"),
    setIfExists_ne (by decide : js "Fecha anuncio" ≠ js "Gancho"),
    setIfExists_ne (by decide : js "Fecha anuncio" ≠ js "Resumen"),
    setDateIfValid_ne (by decide : js "Fecha anuncio" ≠ js "Fecha"),
    setIfExists_ne (by decide : js "Fecha anuncio" ≠ js "Score viral"),
    setIfExists_ne (by decide : js "Fecha anuncio" ≠ js "Emoción"),
    setIfExists_ne (by decide : js "Fecha anuncio" ≠ js "Popularidad"),
    setIfExists_ne (by decide : js "Fecha anuncio" ≠ js "Tipo"),
    setIfExists_ne (by decide : js "Fecha anuncio" ≠ js "Juego")]
  rfl

/-! ### Dedupe lemmas (C4) -/

theorem dedupe_filter (k : JsString) :
    ∀ (l : List FeedEntry) (seen : List JsString),
      (dedupe seen l).filter (fun x => decide (dedupeKey x = k)) =
        if k ∈ seen then []
        else (l.filter (fun x => decide (dedupeKey x = k))).take 1
  | [], seen => by
    simp only [dedupe, List.filter_nil, List.take_nil]
    split <;> rfl
  | x :: rest, seen => by
    simp only [dedupe]
    by_cases hk : dedupeKey x ∈ seen
    · rw [if_pos hk, dedupe_filter k rest seen]
      by_cases hks : k ∈ seen
      · rw [if_pos hks, if_pos hks]
      · have hxk : ¬ (dedupeKey x = k) := fun heq => hks (heq ▸ hk)
        rw [if_neg hks, if_neg hks, List.filter_cons, if_neg (by simpa using hxk)]
    · rw [if_neg hk]
      by_cases hxk : dedupeKey x = k
      · have hks : k ∉ seen := fun hin => hk (hxk ▸ hin)
        rw [List.filter_cons, if_pos (by simpa using hxk),
          dedupe_filter k rest (dedupeKey x :: seen),
          if_pos (by rw [hxk] at *; exact List.mem_cons_self _ _),
          if_neg hks, List.filter_cons, if_pos (by simpa using hxk)]
        rfl
      · rw [List.filter_cons, if_neg (by simpa using hxk),
          dedupe_filter k rest (dedupeKey x :: seen)]
        by_cases hks : k ∈ seen
        · rw [if_pos (List.mem_cons_of_mem _ hks), if_pos hks]
        · have hne : k ∉ dedupeKey x :: seen := by
            simp only [List.mem_cons]
            rintro (rfl | hin)
            · exact hxk rfl
            · exact hks hin
          rw [if_neg hne, if_neg hks, List.filter_cons,
            if_neg (by simpa using hxk)]

theorem dedupe_keys_nodup :
    ∀ (l : List FeedEntry) (seen : List JsString),
      ((dedupe seen l).map dedupeKey).Nodup ∧
        ∀ k ∈ (dedupe seen l).map dedupeKey, k ∉ seen
  | [], _ => by simp [dedupe]
  | x :: rest, seen => by
    simp only [dedupe]
    by_cases hk : dedupeKey x ∈ seen
    · rw [if_pos hk]
      exact dedupe_keys_nodup rest seen
    · rw [if_neg hk]
      have ih := dedupe_keys_nodup rest (dedupeKey x :: seen)
      refine ⟨?_, ?_⟩
      · rw [List.map_cons, List.nodup_cons]
        exact ⟨fun hmem => (ih.2 _ hmem) (List.mem_cons_self _ _), ih.1⟩
      · intro k hkmem
        rw [List.map_cons, List.mem_cons] at hkmem
        rcases hkmem with rfl | hkmem
        · exact hk
        · exact fun hin => (ih.2 _ hkmem) (List.mem_cons_of_mem _ hin)

theorem dedupe_subset :
    ∀ (seen : List JsString) (l : List FeedEntry), dedupe seen l ⊆ l
  | _, [] => by simp [dedupe]
  | seen, x :: rest => by
    simp only [dedupe]
    by_cases hk : dedupeKey x ∈ seen
    · rw [if_pos hk]
      exact (dedupe_subset seen rest).trans (List.subset_cons_self _ _)
    · rw [if_neg hk]
      exact List.cons_subset_cons x (dedupe_subset _ rest)

/-- C4: within one run no two retained entries share a dedupe key — both in
the deduplicated set and in the extractor's final output — and for each key
the survivor is exactly the first entry carrying it in feed-then-item
iteration order (the filtered survivor list is the first element of the
filtered input list). -/
theorem dedupe_first_wins (dp : JsString → Option Int) (cutoff : Int)
    (feeds : List RawFeed) (l : List FeedEntry) (k : JsString) :
    ((fetchRecentRssItems dp cutoff feeds).map dedupeKey).Nodup ∧
    ((dedupe [] l).map dedupeKey).Nodup ∧
    (dedupe [] l).filter (fun x => decide (dedupeKey x = k)) =
      (l.filter (fun x => decide (dedupeKey x = k))).take 1 := by
  refine ⟨?_, (dedupe_keys_nodup l []).1, ?_⟩
  · have hperm : (List.insertionSort entryGE
        (dedupe [] (feeds.flatMap (processFeed dp cutoff)))).map dedupeKey
        |>.Perm ((dedupe [] (feeds.flatMap (processFeed dp cutoff))).map dedupeKey) :=
      (List.perm_insertionSort entryGE _).map dedupeKey
    have hnodup := hperm.nodup_iff.mpr (dedupe_keys_nodup _ []).1
    have : fetchRecentRssItems dp cutoff feeds =
        (List.insertionSort entryGE
          (dedupe [] (feeds.flatMap (processFeed dp cutoff)))).take
            MAX_ITEMS_FOR_MODEL := rfl
    rw [this, List.map_take]
    exact (List.take_sublist _ _).nodup hnodup
  · rw [dedupe_filter k l []]
    rfl

/-! ### Cutoff filter (C5) -/

theorem processItem_date_ge {dp : JsString → Option Int} {cutoff : Int}
    {src : JsString} {it : RawItem} {e : FeedEntry}
    (h : processItem dp cutoff src it = some e) : cutoff ≤ e.date := by
  simp only [processItem] at h
  split at h
  · exact absurd h (by simp)
  · next t _ =>
    split at h
    · exact absurd h (by simp)
    · next ht =>
      split at h
      · have hdate : e.date = t := by
          have he := (Option.some_inj.mp h).symm
          rw [he]
        omega
      · exact absurd h (by simp)

/-- C5: every entry in the extractor's output has a timestamp at or after
the cutoff — an item strictly before `now − windowDays` never appears — and
the comparison is strict: a concrete item with timestamp exactly equal to
the cutoff IS retained (the boundary case is not discarded). -/
theorem cutoff_strict (dp : JsString → Option Int) (cutoff : Int)
    (feeds : List RawFeed) :
    (∀ e ∈ fetchRecentRssItems dp cutoff feeds, cutoff ≤ e.date) ∧
    fetchRecentRssItems dpBoundary 0 [feedBoundary] = [entryBoundary] := by
  constructor
  · intro e he
    have h1 : e ∈ List.insertionSort entryGE
        (dedupe [] (feeds.flatMap (processFeed dp cutoff))) :=
      List.take_subset _ _ he
    have h2 : e ∈ dedupe [] (feeds.flatMap (processFeed dp cutoff)) :=
      (List.perm_insertionSort entryGE _).subset h1
    have h3 : e ∈ feeds.flatMap (processFeed dp cutoff) :=
      dedupe_subset _ _ h2
    rcases List.mem_flatMap.mp h3 with ⟨f, _, hef⟩
    unfold processFeed at hef
    rcases List.mem_filterMap.mp hef with ⟨it, _, hsome⟩
    exact processItem_date_ge hsome
  · decide

/-- C5 witness: the boundary entry (date = cutoff = 0) is in the output,
so its date satisfies the bound established by the theorem. -/
theorem cutoff_strict_witness : (0 : Int) ≤ entryBoundary.date :=
  (cutoff_strict dpBoundary 0 [feedBoundary]).1 _ (by decide)

/-! ### C9 — per-feed cap, sort order, total cap -/

theorem processFeed_cap (dp : JsString → Option Int) (cutoff : Int)
    (f : RawFeed) :
    processFeed dp cutoff { f with items := f.items.take MAX_PER_FEED } =
      processFeed dp cutoff f := by
  unfold processFeed
  rw [List.take_take]
  rfl

theorem flatMap_congr_on {α β : Type} (l : List α) (f g : α → List β)
    (h : ∀ a ∈ l, f a = g a) : l.flatMap f = l.flatMap g := by
  induction l with
  | nil => rfl
  | cons a rest ih =>
    rw [List.flatMap_cons, List.flatMap_cons, h a (List.mem_cons_self _ _),
      ih fun b hb => h b (List.mem_cons_of_mem _ hb)]

/-- C9: the extractor's output (a) never exceeds `MAX_ITEMS_FOR_MODEL = 28`
entries, (b) is sorted by timestamp descending, (c) is exactly (a
permutation of) the deduplicated survivors whenever those fit the cap, and
(d) is unchanged when each feed's item list is pre-capped to its first
`MAX_PER_FEED = 20` items — items beyond the per-feed cap, taken in
feed-provided order, are never considered. -/
theorem extractor_caps_and_order (dp : JsString → Option Int) (cutoff : Int)
    (feeds : List RawFeed) :
    (fetchRecentRssItems dp cutoff feeds).length ≤ MAX_ITEMS_FOR_MODEL ∧
    List.Sorted entryGE (fetchRecentRssItems dp cutoff feeds) ∧
    ((dedupe [] (feeds.flatMap (processFeed dp cutoff))).length
        ≤ MAX_ITEMS_FOR_MODEL →
      (fetchRecentRssItems dp cutoff feeds).Perm
        (dedupe [] (feeds.flatMap (processFeed dp cutoff)))) ∧
    fetchRecentRssItems dp cutoff
        (feeds.map fun f => { f with items := f.items.take MAX_PER_FEED }) =
      fetchRecentRssItems dp cutoff feeds := by
  have hdef : fetchRecentRssItems dp cutoff feeds =
      (List.insertionSort entryGE
        (dedupe [] (feeds.flatMap (processFeed dp cutoff)))).take
          MAX_ITEMS_FOR_MODEL := rfl
  refine ⟨?_, ?_, ?_, ?_⟩
  · rw [hdef]
    exact List.length_take_le _ _
  · rw [hdef]
    exact (List.sorted_insertionSort entryGE _).sublist (List.take_sublist _ _)
  · intro hlen
    rw [hdef]
    have hsortlen : (List.insertionSort entryGE
        (dedupe [] (feeds.flatMap (processFeed dp cutoff)))).length
        ≤ MAX_ITEMS_FOR_MODEL := by
      rw [(List.perm_insertionSort entryGE _).length_eq]
      exact hlen
    rw [List.take_of_length_le hsortlen]
    exact List.perm_insertionSort entryGE _
  · unfold fetchRecentRssItems
    rw [List.flatMap_map,
      flatMap_congr_on feeds _ _ (fun f _ => processFeed_cap dp cutoff f)]

/-- C9 witness: on the concrete boundary feed the deduplicated survivors
fit the cap, so the output is a permutation of them. -/
theorem extractor_caps_and_order_witness :
    (fetchRecentRssItems dpBoundary 0 [feedBoundary]).Perm
      (dedupe [] ([feedBoundary].flatMap (processFeed dpBoundary 0))) :=
  (extractor_caps_and_order dpBoundary 0 [feedBoundary]).2.2.1 (by decide)

/-! ### C10 — `normalizeKey` canonicity -/

theorem lower_idem (c : Nat) : lower (lower c) = lower c := by
  unfold lower
  by_cases h : 65 ≤ c ∧ c ≤ 90
  · rw [if_pos h, if_neg (by omega : ¬(65 ≤ c + 32 ∧ c + 32 ≤ 90))]
  · rw [if_neg h, if_neg h]

theorem collapseAux_false_cons_ws {c : Nat} (rest : JsString)
    (hc : isWS c = true) :
    collapseAux false (c :: rest) = 32 :: collapseAux true rest := by
  simp [collapseAux, hc]

theorem collapseAux_true_cons_ws {c : Nat} (rest : JsString)
    (hc : isWS c = true) :
    collapseAux true (c :: rest) = collapseAux true rest := by
  simp [collapseAux, hc]

theorem collapseAux_cons_not_ws {c : Nat} (b : Bool) (rest : JsString)
    (hc : isWS c = false) :
    collapseAux b (c :: rest) = c :: collapseAux false rest := by
  cases b <;> simp [collapseAux, hc]

theorem collapseAux_nil (b : Bool) : collapseAux b [] = [] := by
  cases b <;> rfl

theorem collapseAux_WSare32 :
    ∀ (b : Bool) (l : JsString), WSare32 (collapseAux b l)
  | b, [] => by
    intro d hd _
    rw [collapseAux_nil b] at hd
    exact absurd hd (List.not_mem_nil _)
  | b, c :: rest => by
    intro d hd hws
    by_cases hc : isWS c = true
    · by_cases hb : b = true
      · subst hb
        rw [collapseAux_true_cons_ws rest hc] at hd
        exact collapseAux_WSare32 true rest d hd hws
      · have hb' : b = false := by revert hb; cases b <;> simp
        subst hb'
        rw [collapseAux_false_cons_ws rest hc] at hd
        rcases List.mem_cons.mp hd with rfl | hd'
        · rfl
        · exact collapseAux_WSare32 true rest d hd' hws
    · have hcf : isWS c = false := by revert hc; cases isWS c <;> simp
      rw [collapseAux_cons_not_ws b rest hcf] at hd
      rcases List.mem_cons.mp hd with rfl | hd'
      · rw [hcf] at hws
        exact absurd hws (by simp)
      · exact collapseAux_WSare32 false rest d hd' hws

theorem mem_collapseAux :
    ∀ (b : Bool) (l : JsString) (d : Nat),
      d ∈ collapseAux b l → d = 32 ∨ d ∈ l
  | b, [], d => by
    intro hd
    rw [collapseAux_nil b] at hd
    exact absurd hd (List.not_mem_nil _)
  | b, c :: rest, d => by
    intro hd
    by_cases hc : isWS c = true
    · by_cases hb : b = true
      · subst hb
        rw [collapseAux_true_cons_ws rest hc] at hd
        rcases mem_collapseAux true rest d hd with h32 | hmem
        · exact Or.inl h32
        · exact Or.inr (List.mem_cons_of_mem _ hmem)
      · have hb' : b = false := by revert hb; cases b <;> simp
        subst hb'
        rw [collapseAux_false_cons_ws rest hc] at hd
        rcases List.mem_cons.mp hd with rfl | hd'
        · exact Or.inl rfl
        · rcases mem_collapseAux true rest d hd' with h32 | hmem
          · exact Or.inl h32
          · exact Or.inr (List.mem_cons_of_mem _ hmem)
    · have hcf : isWS c = false := by revert hc; cases isWS c <;> simp
      rw [collapseAux_cons_not_ws b rest hcf] at hd
      rcases List.mem_cons.mp hd with rfl | hd'
      · exact Or.inr (List.mem_cons_self _ _)
      · rcases mem_collapseAux false rest d hd' with h32 | hmem
        · exact Or.inl h32
        · exact Or.inr (List.mem_cons_of_mem _ hmem)

theorem collapseAux_chain :
    ∀ l : JsString,
      NoWSRun (collapseAux false l) ∧ NoWSRun (collapseAux true l) ∧
        headNotWS (collapseAux true l)
  | [] => by
    refine ⟨?_, ?_, ?_⟩
    · rw [collapseAux_nil]; exact List.chain'_nil
    · rw [collapseAux_nil]; exact List.chain'_nil
    · intro c hc
      rw [collapseAux_nil] at hc
      simp at hc
  | c :: rest => by
    obtain ⟨ih1, ih2, ih3⟩ := collapseAux_chain rest
    by_cases hc : isWS c = true
    · rw [collapseAux_false_cons_ws rest hc, collapseAux_true_cons_ws rest hc]
      refine ⟨?_, ih2, ih3⟩
      refine List.chain'_cons'.mpr ⟨?_, ih2⟩
      intro y hy hcon
      have hyf := ih3 y (Option.mem_def.mp hy)
      rw [hyf] at hcon
      exact absurd hcon.2 (by simp)
    · have hcf : isWS c = false := by revert hc; cases isWS c <;> simp
      rw [collapseAux_cons_not_ws false rest hcf,
        collapseAux_cons_not_ws true rest hcf]
      refine ⟨?_, ?_, ?_⟩
      · refine List.chain'_cons'.mpr ⟨?_, ih1⟩
        intro y _ hcon
        rw [hcf] at hcon
        exact absurd hcon.1 (by simp)
      · refine List.chain'_cons'.mpr ⟨?_, ih1⟩
        intro y _ hcon
        rw [hcf] at hcon
        exact absurd hcon.1 (by simp)
      · intro d hd
        have hcd : c = d := by simpa using hd
        rw [← hcd]
        exact hcf

theorem collapseAux_fixed :
    ∀ l : JsString, WSare32 l → NoWSRun l →
      collapseAux false l = l ∧ (headNotWS l → collapseAux true l = l)
  | [] => fun _ _ => ⟨collapseAux_nil false, fun _ => collapseAux_nil true⟩
  | c :: rest => fun hw hnc => by
    have hwr : WSare32 rest := fun d hd => hw d (List.mem_cons_of_mem _ hd)
    have hncr : NoWSRun rest := (List.chain'_cons'.mp hnc).2
    obtain ⟨ihf, iht⟩ := collapseAux_fixed rest hwr hncr
    by_cases hc : isWS c = true
    · have hc32 : c = 32 := hw c (List.mem_cons_self _ _) hc
      have hrest_head : headNotWS rest := by
        intro d hd
        have hr := (List.chain'_cons'.mp hnc).1 d (Option.mem_def.mpr hd)
        cases hws' : isWS d
        · rfl
        · exact absurd ⟨hc, hws'⟩ hr
      constructor
      · rw [collapseAux_false_cons_ws rest hc, iht hrest_head, hc32]
      · intro hh
        have := hh c rfl
        rw [hc] at this
        exact absurd this (by simp)
    · have hcf : isWS c = false := by revert hc; cases isWS c <;> simp
      constructor
      · rw [collapseAux_cons_not_ws false rest hcf, ihf]
      · intro _
        rw [collapseAux_cons_not_ws true rest hcf, ihf]

theorem dropWhile_head_not {p : Nat → Bool} :
    ∀ (l : JsString) (c : Nat), (l.dropWhile p).head? = some c → p c = false
  | [], c => by intro h; simp at h
  | a :: rest, c => by
    intro h
    rw [List.dropWhile_cons] at h
    by_cases hpa : p a = true
    · rw [if_pos hpa] at h
      exact dropWhile_head_not rest c h
    · rw [if_neg hpa] at h
      have hac : a = c := by simpa using h
      subst hac
      revert hpa
      cases p a <;> simp

theorem dropWhile_eq_self_of_head {p : Nat → Bool} (l : JsString)
    (h : ∀ c, l.head? = some c → p c = false) : l.dropWhile p = l := by
  cases l with
  | nil => rfl
  | cons a rest =>
    rw [List.dropWhile_cons, if_neg (by simp [h a rfl])]

theorem head?_of_initial {l m : JsString} (hp : l <+: m) {c : Nat}
    (hc : l.head? = some c) : m.head? = some c := by
  obtain ⟨t, rfl⟩ := hp
  cases l with
  | nil => simp at hc
  | cons a rest => simpa using hc

theorem trimRight_isInitial (m : JsString) : trimRight m <+: m := by
  unfold trimRight
  have h := List.reverse_prefix.mpr
    (List.dropWhile_suffix isWS : List.dropWhile isWS m.reverse <:+ m.reverse)
  rwa [List.reverse_reverse] at h

theorem trimJs_subset (l : JsString) : trimJs l ⊆ l := by
  intro c hc
  unfold trimJs at hc
  have h1 : c ∈ trimLeft l := (trimRight_isInitial (trimLeft l)).sublist.subset hc
  unfold trimLeft at h1
  exact (List.dropWhile_suffix isWS).sublist.subset h1

theorem trimJs_headNotWS (l : JsString) : headNotWS (trimJs l) := by
  intro c hc
  unfold trimJs at hc
  have h1 : (trimLeft l).head? = some c :=
    head?_of_initial (trimRight_isInitial _) hc
  unfold trimLeft at h1
  exact dropWhile_head_not l c h1

theorem trimJs_lastNotWS (l : JsString) : headNotWS (trimJs l).reverse := by
  intro c hc
  unfold trimJs trimRight at hc
  rw [List.reverse_reverse] at hc
  exact dropWhile_head_not (trimLeft l).reverse c hc

theorem trimJs_eq_self (l : JsString) (h1 : headNotWS l)
    (h2 : headNotWS l.reverse) : trimJs l = l := by
  unfold trimJs trimLeft trimRight
  rw [dropWhile_eq_self_of_head l (fun c hc => h1 c hc),
    dropWhile_eq_self_of_head l.reverse (fun c hc => h2 c hc),
    List.reverse_reverse]

theorem trimJs_chain {l : JsString} (h : NoWSRun l) : NoWSRun (trimJs l) := by
  unfold trimJs
  have h1 : NoWSRun (trimLeft l) :=
    List.Chain'.suffix h (by unfold trimLeft; exact List.dropWhile_suffix isWS)
  exact List.Chain'.prefix h1 (trimRight_isInitial _)

theorem normalizeKey_chars_lower (s : JsString) :
    ∀ c ∈ normalizeKey s, lower c = c := by
  intro c hc
  unfold normalizeKey at hc
  have h1 : c ∈ collapseWS (toLowerJs s) := trimJs_subset _ hc
  unfold collapseWS at h1
  rcases mem_collapseAux false (toLowerJs s) c h1 with rfl | h2
  · decide
  · unfold toLowerJs at h2
    rcases List.mem_map.mp h2 with ⟨a, _, rfl⟩
    exact lower_idem a

theorem map_lower_normalizeKey (s : JsString) :
    toLowerJs (normalizeKey s) = normalizeKey s := by
  unfold toLowerJs
  calc (normalizeKey s).map lower
      = (normalizeKey s).map id :=
        List.map_congr_left fun a ha => normalizeKey_chars_lower s a ha
    _ = normalizeKey s := List.map_id _

/-- C10: `normalizeKey` is idempotent, and its output is canonical: it
contains no ASCII uppercase letter, does not start or end with white space,
and has no run of two consecutive white-space code points. -/
theorem normalizeKey_canonical (s : JsString) :
    normalizeKey (normalizeKey s) = normalizeKey s ∧
    (∀ c ∈ normalizeKey s, ¬(65 ≤ c ∧ c ≤ 90)) ∧
    (∀ c, (normalizeKey s).head? = some c → isWS c = false) ∧
    (∀ c, (normalizeKey s).reverse.head? = some c → isWS c = false) ∧
    NoWSRun (normalizeKey s) := by
  have hws32 : WSare32 (normalizeKey s) := by
    intro c hc hws
    have h1 : c ∈ collapseWS (toLowerJs s) := trimJs_subset _ hc
    exact collapseAux_WSare32 false (toLowerJs s) c h1 hws
  have hchain : NoWSRun (normalizeKey s) :=
    trimJs_chain (collapseAux_chain (toLowerJs s)).1
  have hhead : headNotWS (normalizeKey s) :=
    trimJs_headNotWS (collapseWS (toLowerJs s))
  have hlast : headNotWS (normalizeKey s).reverse :=
    trimJs_lastNotWS (collapseWS (toLowerJs s))
  refine ⟨?_, ?_, hhead, hlast, hchain⟩
  · have hz : normalizeKey (normalizeKey s)
        = trimJs (collapseWS (toLowerJs (normalizeKey s))) := rfl
    rw [hz, map_lower_normalizeKey s]
    have hcoll : collapseWS (normalizeKey s) = normalizeKey s :=
      (collapseAux_fixed _ hws32 hchain).1
    rw [hcoll]
    exact trimJs_eq_self _ hhead hlast
  · intro c hc hup
    have hl := normalizeKey_chars_lower s c hc
    unfold lower at hl
    rw [if_pos hup] at hl
    omega

/-- C10 witness: on `" Foo  BAR "` the key normalizes to `"foo bar"` and
is a fixed point; `102` (`f`) is its first code point, lowercase and not
white space. -/
theorem normalizeKey_canonical_witness :
    normalizeKey (normalizeKey (js " Foo  BAR ")) = normalizeKey (js " Foo  BAR ") ∧
    ¬(65 ≤ 102 ∧ 102 ≤ 90) ∧ isWS 102 = false := by
  refine ⟨(normalizeKey_canonical (js " Foo  BAR ")).1,
    (normalizeKey_canonical (js " Foo  BAR ")).2.1 102 (by decide),
    (normalizeKey_canonical (js " Foo  BAR ")).2.2.1 102 (by decide)⟩

end NotionGamingIdeas
